import Mathlib

/-!
# CodeGuardian usage-resolution and rewrite engine: a shallow embedding

This file embeds the core of the `codeguardian` TypeScript repository in
Lean 4 and proves properties of the embedded code.

Embedded components (from the repository's `src/`):
* `src/parser.ts` — the symbol-model extractor (`Parser.parseCode`) and the
  unused-import resolver (`Parser.findUnusedImports`).  Syntax trees are
  produced by the external `@babel/parser` library; we model the relevant
  fragment of its AST as an inductive type and the `traverse` visitor
  callbacks of `parseCode` as a recursive walk over that type.
* `src/detectors/unused-dependencies.ts` — the unused-dependency resolver
  (`detect`, `extractImports`, `extractPackageName`, `isPackageUsed`,
  `isKnownToolPackage`).  The three regular-expression scans of
  `extractImports` are embedded as backtracking matchers over character
  lists, faithful to JavaScript regex semantics for those patterns.
* `src/fixer.ts` — the rewrite engine (`AutoFixer.fix`,
  `fixUnusedImports`, `isOnlyImportOnLine`, `removeImportFromLine`,
  `fixUnusedDependencies`, `runTests`, `rollback`).

File contents are lists of characters; the file system is an association
list from paths to contents; `package.json` is a record of ordered
name/version association lists.  JavaScript `number` confidences are
modelled as rationals (all confidence constants in the source are exact
decimal literals).
-/

namespace CodeGuardian

/-! ## JavaScript string primitives on character lists -/

/-- JavaScript regular-expression class `\s` (ASCII part; the source only
ever meets ASCII whitespace in import statements). -/
def isWs (c : Char) : Bool :=
  c = ' ' || c = '\t' || c = '\n' || c = '\r' || c = '\x0b' || c = '\x0c'

/-- JavaScript regular-expression word character (class `\w`), used by the
word-boundary assertion `\b`. -/
def isWordChar (c : Char) : Bool :=
  ('a' ≤ c && c ≤ 'z') || ('A' ≤ c && c ≤ 'Z') || ('0' ≤ c && c ≤ '9') || c = '_'

/-- `String.prototype.split` with a single-character separator:
`"a\nb".split('\n') = ["a","b"]`, `"".split('\n') = [""]`. -/
def splitOnChar (sep : Char) : List Char → List (List Char)
  | [] => [[]]
  | c :: cs =>
    match splitOnChar sep cs with
    | [] => [[c]]
    | l :: ls => if c = sep then [] :: l :: ls else (c :: l) :: ls

/-- `Array.prototype.join` with a single-character separator; inverse of
`splitOnChar` on separator-free pieces. -/
def joinChar (sep : Char) : List (List Char) → List Char
  | [] => []
  | [l] => l
  | l :: ls => l ++ sep :: joinChar sep ls

/-- `String.prototype.includes` for a string argument: substring test. -/
def jsIncludes : List Char → List Char → Bool
  | s, sub =>
    sub.isPrefixOf s ||
      match s with
      | [] => false
      | _ :: cs => jsIncludes cs sub

/-- First occurrence of `pat` in `s` replaced by `repl`; `String.prototype.replace`
with a plain-string pattern replaces only the first occurrence. -/
def replaceFirst (s pat repl : List Char) : List Char :=
  match s with
  | [] => []
  | c :: cs =>
    if pat.isPrefixOf (c :: cs) then repl ++ (c :: cs).drop pat.length
    else c :: replaceFirst cs pat repl

/-! ## Backtracking matchers for the regular expressions of the source

Each matcher takes the rest of the input and a continuation; greedy pieces
try longer matches first, lazy pieces try the continuation first, exactly
as a JavaScript backtracking regex engine would. -/

/-- Match `\s*` greedily (longest first), then hand the rest to `k`. -/
def matchWsStar (k : List Char → Option α) : List Char → Option α
  | [] => k []
  | c :: cs =>
    if isWs c then (matchWsStar k cs).orElse (fun _ => k (c :: cs))
    else k (c :: cs)

/-- Match `\s+` greedily, then hand the rest to `k`. -/
def matchWsPlus (k : List Char → Option α) : List Char → Option α
  | [] => none
  | c :: cs => if isWs c then matchWsStar k cs else none

/-- Match `.*?` lazily (shortest first; `.` does not match line
terminators), then hand the rest to `k`. -/
def matchLazyDots (k : List Char → Option α) : List Char → Option α
  | [] => k []
  | c :: cs =>
    (k (c :: cs)).orElse (fun _ =>
      if c = '\n' || c = '\r' then none else matchLazyDots k cs)

/-- Strip a literal from the input. -/
def stripLit (lit : List Char) (cs : List Char) : Option (List Char) :=
  if lit.isPrefixOf cs then some (cs.drop lit.length) else none

/-- Match `['"]([^'"]+)['"]`, returning the capture and the rest.  The
character class `[^'"]` is disjoint from the closing quote class, so the
greedy capture is the maximal quote-free run. -/
def matchQuoted (cs : List Char) : Option (List Char × List Char) :=
  match cs with
  | [] => none
  | q :: rest =>
    if q = '\'' || q = '"' then
      let cap := rest.takeWhile (fun c => !(c = '\'' || c = '"'))
      let rest' := rest.drop cap.length
      match rest' with
      | [] => none
      | q' :: rest'' =>
        if (q' = '\'' || q' = '"') && cap.length ≠ 0 then some (cap, rest'') else none
    else none

/-- Try the pattern `import\s+.*?\s+from\s+['"]([^'"]+)['"]` anchored at the
start of the input; on success return the capture and the input after the
match (`lastIndex` semantics). -/
def matchEs6At (cs : List Char) : Option (List Char × List Char) :=
  (stripLit "import".toList cs).bind
    (matchWsPlus (matchLazyDots (matchWsPlus (fun cs2 =>
      (stripLit "from".toList cs2).bind (matchWsPlus matchQuoted)))))

/-- Try `require\s*\(\s*['"]([^'"]+)['"]\s*\)` anchored at the start. -/
def matchRequireAt (cs : List Char) : Option (List Char × List Char) :=
  (stripLit "require".toList cs).bind
    (matchWsStar (fun cs1 =>
      (stripLit "(".toList cs1).bind
        (matchWsStar (fun cs2 =>
          (matchQuoted cs2).bind (fun (cap, cs3) =>
            matchWsStar (fun cs4 =>
              (stripLit ")".toList cs4).map (fun cs5 => (cap, cs5))) cs3)))))

/-- Try `import\s*\(\s*['"]([^'"]+)['"]\s*\)` anchored at the start. -/
def matchDynImportAt (cs : List Char) : Option (List Char × List Char) :=
  (stripLit "import".toList cs).bind
    (matchWsStar (fun cs1 =>
      (stripLit "(".toList cs1).bind
        (matchWsStar (fun cs2 =>
          (matchQuoted cs2).bind (fun (cap, cs3) =>
            matchWsStar (fun cs4 =>
              (stripLit ")".toList cs4).map (fun cs5 => (cap, cs5))) cs3)))))

/-- The `while ((match = re.exec(content)) !== null)` loop of a global
regex: find successive non-overlapping matches left to right, collecting
group 1 of each.  Every pattern used here consumes at least one character,
so fuel `cs.length + 1` never runs out. -/
def scanWith (m : List Char → Option (List Char × List Char)) :
    Nat → List Char → List (List Char)
  | 0, _ => []
  | _, [] => []
  | fuel + 1, c :: cs =>
    match m (c :: cs) with
    | some (cap, rest) => cap :: scanWith m fuel rest
    | none => scanWith m fuel cs

/-- All captures of a global regex over the whole input. -/
def scanAll (m : List Char → Option (List Char × List Char)) (cs : List Char) :
    List (List Char) :=
  scanWith m (cs.length + 1) cs

/-- `String.prototype.replace` with a global regex: scan left to right,
substituting `repl` for each non-overlapping match.  `m` returns the rest
of the input after a match; all patterns used consume at least one
character. -/
def replaceScan (m : List Char → Option (List Char)) (repl : List Char) :
    Nat → List Char → List Char
  | 0, cs => cs
  | _, [] => []
  | fuel + 1, c :: cs =>
    match m (c :: cs) with
    | some rest => repl ++ replaceScan m repl fuel rest
    | none => c :: replaceScan m repl fuel cs

/-- Global replacement over the whole input. -/
def replaceAllPat (m : List Char → Option (List Char)) (repl : List Char)
    (cs : List Char) : List Char :=
  replaceScan m repl (cs.length + 1) cs

/-- Anchored match of `,\s*,` (the `,` following `\s*` is not whitespace,
so the greedy star needs no backtracking). -/
def matchCommaWsComma : List Char → Option (List Char)
  | ',' :: cs =>
    matchWsStar (fun cs1 => match cs1 with
      | ',' :: rest => some rest
      | _ => none) cs
  | _ => none

/-- Anchored match of `,\s*}`. -/
def matchCommaWsBrace : List Char → Option (List Char)
  | ',' :: cs =>
    matchWsStar (fun cs1 => match cs1 with
      | '\x7d' :: rest => some rest
      | _ => none) cs
  | _ => none

/-- Anchored match of `{\s*,`. -/
def matchBraceWsComma : List Char → Option (List Char)
  | '\x7b' :: cs =>
    matchWsStar (fun cs1 => match cs1 with
      | ',' :: rest => some rest
      | _ => none) cs
  | _ => none

/-- Anchored test of `import\s+{\s*}\s+from`. -/
def matchImportEmptyBracesAt (cs : List Char) : Bool :=
  ((stripLit "import".toList cs).bind
    (matchWsPlus (fun cs1 =>
      (stripLit "\x7b".toList cs1).bind
        (matchWsStar (fun cs2 =>
          (stripLit "\x7d".toList cs2).bind
            (matchWsPlus (fun cs3 => stripLit "from".toList cs3))))))).isSome

/-- Anchored test of `import\s+from`. -/
def matchImportFromAt (cs : List Char) : Bool :=
  ((stripLit "import".toList cs).bind
    (matchWsPlus (fun cs1 => stripLit "from".toList cs1))).isSome

/-- `RegExp.prototype.test`-style search: does the pattern match at some
position of the input? -/
def searchPat (m : List Char → Bool) : List Char → Bool
  | [] => m []
  | c :: cs => m (c :: cs) || searchPat m cs

/-! ## Data model (`src/types.ts`) -/

/-- `UnusedImport` finding (`src/types.ts`). -/
structure UnusedImport where
  file : String
  line : Nat
  column : Nat
  importName : String
  source : String
  confidence : ℚ
deriving DecidableEq, Repr

/-- The `type` discriminant of an `UnusedDependency` finding. -/
inductive DepType where
  | dependency
  | devDependency
  | peerDependency
deriving DecidableEq, Repr

/-- `UnusedDependency` finding (`src/types.ts`). -/
structure UnusedDependency where
  name : String
  version : String
  type : DepType
  confidence : ℚ
  reason : String
deriving DecidableEq, Repr

/-- `FixResult` (`src/types.ts`). -/
structure FixResult where
  success : Bool
  filesModified : List String
  importsRemoved : Nat
  dependenciesRemoved : List String
  errors : List String
deriving DecidableEq, Repr

/-- The slice of `AnalysisResult` consumed by the fixer. -/
structure AnalysisResult where
  unusedImports : List UnusedImport
  unusedDependencies : List UnusedDependency
deriving DecidableEq, Repr

/-! ## Syntax trees (fragment of the external `@babel/parser` AST)

`parseCode` feeds the tree to `@babel/traverse`; the visitor callbacks in
`src/parser.ts` are the code under embedding.  We model the expression
fragment the claims exercise: identifiers, string literals, member
accesses, calls, object literals and JSX elements.  A non-computed member
access `utils.format` is a `member` node whose `obj` and `prop` are both
`ident` nodes — the traversal visits each `Identifier` node separately.
Argument lists of calls and property lists of object literals are encoded
as dedicated list-shaped constructors of the same inductive, so that the
whole tree is one plain inductive type. -/

inductive Expr where
  | ident (name : String)
  | strLit (s : String)
  | member (obj : Expr) (prop : Expr) (computed : Bool)
  | call (callee : Expr) (args : Expr)
  /-- The empty argument list of a call. -/
  | argsNil
  /-- A non-empty argument list of a call (head argument, rest). -/
  | argsCons (hd : Expr) (tl : Expr)
  | objectLit (props : Expr)
  /-- The empty property list of an object literal. -/
  | propsNil
  /-- A property of an object literal (`computed`, key, value) followed by
  the remaining properties. -/
  | propsCons (computed : Bool) (key : Expr) (value : Expr) (tl : Expr)
  | jsxElement
deriving DecidableEq

/-- Kinds of import specifiers
(`ImportDefaultSpecifier` / `ImportNamespaceSpecifier` / `ImportSpecifier`). -/
inductive SpecKind where
  | default
  | namespaceSpec
  | named
deriving DecidableEq, Repr

/-- One import specifier, with its `local` binding name and location. -/
structure ImportSpec where
  kind : SpecKind
  localName : String
  line : Nat
  column : Nat
deriving DecidableEq, Repr

/-- Top-level statements: import declarations and expression statements. -/
inductive Stmt where
  | importDecl (source : String) (specifiers : List ImportSpec)
  | exprStmt (e : Expr)
deriving DecidableEq

/-! ## Symbol-model extraction (`Parser.parseCode`, `src/parser.ts` 44–183)

The `Identifier` visitor adds `path.node.name` for every identifier node
EXCEPT (a) the binding identifier of an import specifier (modelled here
by specifiers carrying plain strings, not `ident` nodes) and (b) the
non-computed key of an `ObjectProperty`. -/

/-- The names the `Identifier` visitor records for the key of an object
property: a non-computed identifier key is skipped (visitor lines
164–171); every other key is an ordinary expression. -/
def propKeyIdents (usedKey : List String) (computed : Bool) (key : Expr) :
    List String :=
  match key, computed with
  | .ident _, false => []   -- non-computed object-property key: skipped
  | _, _ => usedKey

/-- Identifier names the `Identifier` visitor adds while traversing an
expression, in traversal order. -/
def usedIdents : Expr → List String
  | .ident n => [n]
  | .strLit _ => []
  | .member obj prop _ => usedIdents obj ++ usedIdents prop
  | .call callee args => usedIdents callee ++ usedIdents args
  | .argsNil => []
  | .argsCons hd tl => usedIdents hd ++ usedIdents tl
  | .objectLit props => usedIdents props
  | .propsNil => []
  | .propsCons computed key value tl =>
    propKeyIdents (usedIdents key) computed key ++ usedIdents value ++
      usedIdents tl
  | .jsxElement => []

/-- Does a JSX element occur in the expression (`JSXElement` visitor)? -/
def hasJSXExpr : Expr → Bool
  | .ident _ => false
  | .strLit _ => false
  | .member obj prop _ => hasJSXExpr obj || hasJSXExpr prop
  | .call callee args => hasJSXExpr callee || hasJSXExpr args
  | .argsNil => false
  | .argsCons hd tl => hasJSXExpr hd || hasJSXExpr tl
  | .objectLit props => hasJSXExpr props
  | .propsNil => false
  | .propsCons _ key value tl =>
    hasJSXExpr key || hasJSXExpr value || hasJSXExpr tl
  | .jsxElement => true

/-- `ImportInfo` (`src/parser.ts` 11–18). -/
structure ImportInfo where
  name : String
  source : String
  line : Nat
  column : Nat
  isDefault : Bool
  isNamespace : Bool
deriving DecidableEq, Repr

/-- The per-file symbol model (`FileAnalysis`, `src/parser.ts` 20–25,
without the `exports` set, which no embedded operation consumes).
`usedIdentifiers` is a JavaScript `Set`; only membership and an
existential scan are ever performed on it, so a duplicate-preserving list
is an equivalent model. -/
structure FileAnalysis where
  imports : List ImportInfo
  usedIdentifiers : List String
  hasJSX : Bool
deriving DecidableEq, Repr

/-- The `ImportDeclaration` visitor: one `ImportInfo` per specifier,
skipping specifiers with an empty local name (`if (name)`). -/
def specToInfo (source : String) (s : ImportSpec) : Option ImportInfo :=
  if s.localName = "" then none
  else some
    { name := s.localName
      source := source
      line := s.line
      column := s.column
      isDefault := match s.kind with | .default => true | _ => false
      isNamespace := match s.kind with | .namespaceSpec => true | _ => false }

/-- Identifier names contributed by one statement. -/
def stmtUsedIdents : Stmt → List String
  | .importDecl _ _ => []
  | .exprStmt e => usedIdents e

/-- Import infos contributed by one statement. -/
def stmtImports : Stmt → List ImportInfo
  | .importDecl source specs => specs.filterMap (specToInfo source)
  | .exprStmt _ => []

/-- JSX flag contributed by one statement. -/
def stmtHasJSX : Stmt → Bool
  | .importDecl _ _ => false
  | .exprStmt e => hasJSXExpr e

/-- `Parser.parseCode`: single traversal accumulating the symbol model. -/
def parseCode (prog : List Stmt) : FileAnalysis :=
  { imports := prog.flatMap stmtImports
    usedIdentifiers := prog.flatMap stmtUsedIdents
    hasJSX := prog.any stmtHasJSX }

/-! ## Unused-import resolution (`Parser.findUnusedImports`,
`src/parser.ts` 188–229) -/

/-- The fixed confidence constant `0.95` of unused-import findings, as the
normalized rational `19/20` (a `Rat` structure literal, so that all
comparisons on it evaluate by kernel reduction). -/
def importConfidence : ℚ := ⟨19, 20, by decide, by norm_num⟩

/-- The per-import body of the `analysis.imports.forEach` loop of
`findUnusedImports`: `none` when the import counts as used, otherwise the
finding that is pushed.  (`identifier.startsWith(imp.name + '.')` is the
character-level prefix test.) -/
def resolveImport (filePath : String) (analysis : FileAnalysis)
    (imp : ImportInfo) : Option UnusedImport :=
  let isUsed := analysis.usedIdentifiers.contains imp.name
  -- Special case: React in JSX files
  let isUsed := if imp.name == "React" && analysis.hasJSX then true else isUsed
  -- Special case: namespace imports might be used with property access
  let isUsed :=
    if imp.isNamespace &&
        analysis.usedIdentifiers.any
          (fun id => (imp.name ++ ".").toList.isPrefixOf id.toList) then
      true
    else isUsed
  if isUsed then none
  else some
    { file := filePath
      line := imp.line
      column := imp.column
      importName := imp.name
      source := imp.source
      confidence := importConfidence }

/-- `Parser.findUnusedImports`, on an already-extracted symbol model. -/
def findUnusedImportsA (filePath : String) (analysis : FileAnalysis) :
    List UnusedImport :=
  analysis.imports.filterMap (resolveImport filePath analysis)

/-- `Parser.findUnusedImports` on a program (parse, then resolve). -/
def findUnusedImportsPr (filePath : String) (prog : List Stmt) :
    List UnusedImport :=
  findUnusedImportsA filePath (parseCode prog)

/-! ## Unused-dependency detection
(`src/detectors/unused-dependencies.ts`) -/

/-- The manifest (`PackageJson` interface): three ordered name → version
maps (`Object.entries` iterates JSON object keys in insertion order; an
absent map, defaulted by `|| {}` in the source, is the empty list). -/
structure PackageJson where
  dependencies : List (String × String)
  devDependencies : List (String × String)
  peerDependencies : List (String × String)
deriving DecidableEq, Repr

/-- Add to the `usedPackages` `Set` (insertion-ordered, duplicate-free). -/
def setAdd (s : List (List Char)) (x : List Char) : List (List Char) :=
  if s.contains x then s else s ++ [x]

/-- `extractPackageName` (`src/detectors/unused-dependencies.ts` 149–167):
reduce an import specifier to a declared package name. -/
def extractPackageName (importPath : List Char) : Option (List Char) :=
  -- Skip relative imports
  if importPath.head? = some '.' || importPath.head? = some '/' then none
  -- Handle scoped packages (@org/package)
  else if importPath.head? = some '@' then
    let parts := splitOnChar '/' importPath
    if 2 ≤ parts.length then some (parts.getD 0 [] ++ '/' :: parts.getD 1 [])
    else some (parts.getD 0 [])
  -- Handle regular packages
  else some ((splitOnChar '/' importPath).getD 0 [])

/-- `extractImports` (lines 110–144): the three global regex scans, each
capture reduced by `extractPackageName` and, when truthy (non-null and
non-empty), added to the used-package set. -/
def extractImports (content : List Char) (used : List (List Char)) :
    List (List Char) :=
  let caps :=
    scanAll matchEs6At content ++ scanAll matchRequireAt content ++
      scanAll matchDynImportAt content
  caps.foldl
    (fun s cap =>
      match extractPackageName cap with
      | some p => if p ≠ [] then setAdd s p else s
      | none => s)
    used

/-- `isPackageUsed` (lines 172–189): direct membership, or — for names
containing `/` — any used package under the same first segment. -/
def isPackageUsed (packageName : List Char) (usedPackages : List (List Char)) :
    Bool :=
  if usedPackages.contains packageName then true
  else if packageName.contains '/' then
    let basePackage := (splitOnChar '/' packageName).getD 0 []
    usedPackages.any fun used => (basePackage ++ ['/']).isPrefixOf used
  else false

/-- The known build/test tool list (lines 195–211). -/
def knownTools : List String :=
  ["typescript", "eslint", "prettier", "webpack", "vite", "rollup", "jest",
   "vitest", "mocha", "chai", "@types/", "ts-node", "nodemon", "rimraf",
   "cross-env"]

/-- `isKnownToolPackage` (lines 194–214): prefix or exact match. -/
def isKnownToolPackage (name : String) : Bool :=
  knownTools.any fun tool => tool.toList.isPrefixOf name.toList || name == tool

/-- The constant confidence `0.85` of `dependency`-kind findings, as the
normalized rational `17/20`. -/
def depConfidence : ℚ := ⟨17, 20, by decide, by norm_num⟩

/-- The constant confidence `0.75` of `devDependency`-kind findings, as the
normalized rational `3/4`. -/
def devDepConfidence : ℚ := ⟨3, 4, by decide, by norm_num⟩

/-- The two finding loops of `detect` (lines 71–104): regular dependencies,
then dev dependencies (skipping known tools). -/
def detectFrom (pj : PackageJson) (usedPackages : List (List Char)) :
    List UnusedDependency :=
  (pj.dependencies.filterMap fun nv =>
    if isPackageUsed nv.1.toList usedPackages then none
    else some
      { name := nv.1, version := nv.2, type := .dependency
        confidence := depConfidence
        reason := "Not imported in any source file" }) ++
  (pj.devDependencies.filterMap fun nv =>
    if isKnownToolPackage nv.1 then none
    else if isPackageUsed nv.1.toList usedPackages then none
    else some
      { name := nv.1, version := nv.2, type := .devDependency
        confidence := devDepConfidence
        reason := "Not imported in any source file" })

/-- The scan loop of `detect` (lines 62–69): each scanned file is read and
fed to `extractImports`; a read failure (`none`) is swallowed and the file
contributes nothing. -/
def usedPackagesOf (files : List (Option String)) : List (List Char) :=
  files.foldl
    (fun s f =>
      match f with
      | some content => extractImports content.toList s
      | none => s)
    []

/-- `UnusedDependenciesDetector.detect` (lines 26–105).  The manifest input
is the parsed `package.json` when the file exists, `none` otherwise; the
file list carries `none` for files whose read fails. -/
def detect (manifest : Option PackageJson) (files : List (Option String)) :
    Except String (List UnusedDependency) :=
  match manifest with
  | none => .error "package.json not found"
  | some pj => .ok (detectFrom pj (usedPackagesOf files))

/-! ## The rewrite engine (`AutoFixer`, `src/fixer.ts`) -/

/-- `FixerOptions` (`src/fixer.ts` 9–12), after constructor defaulting. -/
structure FixerOptions where
  safeMode : Bool
  requireTests : Bool
deriving DecidableEq, Repr

/-- The constructor defaults (`safeMode: true, requireTests: false`). -/
def defaultFixerOptions : FixerOptions :=
  { safeMode := true, requireTests := false }

/-- The fixed safe-mode confidence floor `0.8` (lines 75 and 173), as the
normalized rational `4/5`. -/
def safeModeFloor : ℚ := ⟨4, 5, by decide, by norm_num⟩

/-- The file system: an association list from paths to contents. -/
abbrev FileSystem := List (String × List Char)

/-- `fs.writeFileSync`: overwrite, or create when absent. -/
def writeFS : FileSystem → String → List Char → FileSystem
  | [], p, c => [(p, c)]
  | (q, d) :: rest, p, c =>
    if q = p then (p, c) :: rest else (q, d) :: writeFS rest p c

/-- `isOnlyImportOnLine` (lines 132–137): delete the first occurrence of
the import name, collapse doubled commas, then test for an empty named
statement or a bare `import from` remnant. -/
def isOnlyImportOnLine (line importName : List Char) : Bool :=
  let withoutImport :=
    replaceAllPat matchCommaWsComma [','] (replaceFirst line importName [])
  searchPat matchImportEmptyBracesAt withoutImport ||
    searchPat matchImportFromAt withoutImport

/-- Last character consumed by a greedy `\s*` run, and the rest. -/
def consumeWsRun : Char → List Char → Char × List Char
  | last, [] => (last, [])
  | last, c :: cs => if isWs c then consumeWsRun c cs else (last, c :: cs)

/-- Anchored match of `` `\b${importName}\b,?\s*` `` minus the leading
boundary (which depends on the previous character and is checked by the
scanner).  Import names are JavaScript identifiers, i.e. non-empty strings
of word characters, so the trailing `\b` is "next character is not a word
character".  Returns the last character the match consumed (the scanner's
notion of previous character for the trailing boundary of a later match)
and the rest of the input. -/
def matchNameTail (name : List Char) (cs : List Char) :
    Option (Char × List Char) :=
  if name ≠ [] ∧ name.isPrefixOf cs then
    let rest1 := cs.drop name.length
    if (rest1.head?.map isWordChar).getD false then none
    else
      match rest1 with
      | ',' :: rest2 => some (consumeWsRun ',' rest2)
      | _ => some (consumeWsRun (name.getLastD ' ') rest1)
  else none

/-- The global word-boundary deletion
`` line.replace(new RegExp(`\\b${importName}\\b,?\\s*`, 'g'), '') ``:
scan left to right carrying the previous character for the leading `\b`.
Every match consumes at least one character, so fuel `|line| + 1`
suffices. -/
def replaceWordScan (name : List Char) : Nat → Option Char → List Char →
    List Char
  | 0, _, cs => cs
  | _, _, [] => []
  | fuel + 1, prev, c :: cs =>
    if (prev.map isWordChar).getD false then
      c :: replaceWordScan name fuel (some c) cs
    else
      match matchNameTail name (c :: cs) with
      | some (last, rest) => replaceWordScan name fuel (some last) rest
      | none => c :: replaceWordScan name fuel (some c) cs

/-- `removeImportFromLine` (lines 142–156): delete the named import token,
then clean up comma artifacts (`,\s*}` → `␣}`, `{\s*,` → `{␣`,
`,\s*,` → `,`). -/
def removeImportFromLine (line importName : List Char) : List Char :=
  let r1 := replaceWordScan importName (line.length + 1) none line
  let r2 := replaceAllPat matchCommaWsBrace [' ', '\x7d'] r1
  let r3 := replaceAllPat matchBraceWsComma ['\x7b', ' '] r2
  replaceAllPat matchCommaWsComma [','] r3

/-- One insertion step of a stable descending sort on line numbers. -/
def insertDesc (imp : UnusedImport) : List UnusedImport → List UnusedImport
  | [] => [imp]
  | x :: xs => if x.line < imp.line then imp :: x :: xs else x :: insertDesc imp xs

/-- `imports.sort((a, b) => b.line - a.line)`: `Array.prototype.sort` is a
stable sort honouring the comparator (ES2019), i.e. a stable descending
sort by line number; insertion sort realises exactly that. -/
def sortByLineDesc : List UnusedImport → List UnusedImport
  | [] => []
  | x :: xs => insertDesc x (sortByLineDesc xs)

/-- Append a finding to the per-file group map (`Map` iteration is in key
insertion order; `byFile.get(imp.file) || []` then `push` then `set`). -/
def groupAdd (acc : List (String × List UnusedImport)) (imp : UnusedImport) :
    List (String × List UnusedImport) :=
  if acc.any (fun kv => kv.1 == imp.file) then
    acc.map fun kv => if kv.1 == imp.file then (kv.1, kv.2 ++ [imp]) else kv
  else acc ++ [(imp.file, [imp])]

/-- The grouping loop of `fixUnusedImports` (lines 72–82), including the
safe-mode confidence skip. -/
def groupByFile (safeMode : Bool) (imps : List UnusedImport) :
    List (String × List UnusedImport) :=
  imps.foldl
    (fun acc imp =>
      if safeMode ∧ imp.confidence < safeModeFloor then acc else groupAdd acc imp)
    []

/-- The body of the `for (const imp of sortedImports)` loop (lines 94–117),
acting on the current line array, the `modified` flag and the running
`importsRemoved` count.  `lineIndex = imp.line - 1` must be a valid index
(a line number `0` gives `lineIndex = -1`, rejected by `lineIndex >= 0`). -/
def importStep (st : List (List Char) × Bool × Nat) (imp : UnusedImport) :
    List (List Char) × Bool × Nat :=
  let (lines, modified, cnt) := st
  match imp.line with
  | 0 => (lines, modified, cnt)
  | n + 1 =>
    if n < lines.length then
      let line := lines.getD n []
      if jsIncludes line imp.importName.toList &&
          jsIncludes line imp.source.toList then
        if isOnlyImportOnLine line imp.importName.toList then
          (lines.eraseIdx n, true, cnt + 1)
        else
          let newLine := removeImportFromLine line imp.importName.toList
          if newLine ≠ line then (lines.set n newLine, true, cnt + 1)
          else (lines, modified, cnt)
      else (lines, modified, cnt)
    else (lines, modified, cnt)

/-- Processing of one file of the group map (lines 85–126): read, split
into lines, apply the findings sorted by descending line number, and write
back only when something changed.  A read failure records a non-fatal
error string. -/
def fixImportsFile (fs : FileSystem) (fr : FixResult) (path : String)
    (imps : List UnusedImport) : FileSystem × FixResult :=
  match List.lookup path fs with
  | none =>
    (fs, { fr with errors := fr.errors ++ ["Failed to fix imports in " ++ path] })
  | some content =>
    let lines := splitOnChar '\n' content
    let res := (sortByLineDesc imps).foldl importStep (lines, false, 0)
    if res.2.1 then
      (writeFS fs path (joinChar '\n' res.1),
       { fr with
           importsRemoved := fr.importsRemoved + res.2.2
           filesModified := fr.filesModified ++ [path] })
    else (fs, { fr with importsRemoved := fr.importsRemoved + res.2.2 })

/-- `AutoFixer.fixUnusedImports` (lines 67–127). -/
def fixUnusedImports (opts : FixerOptions) (result : AnalysisResult)
    (fs : FileSystem) (fr : FixResult) : FileSystem × FixResult :=
  (groupByFile opts.safeMode result.unusedImports).foldl
    (fun st kv => fixImportsFile st.1 st.2 kv.1 kv.2) (fs, fr)

/-- The manifest path used by the fixer
(`path.join(process.cwd(), 'package.json')`). -/
def packageJsonPath : String := "package.json"

/-- The body of the `result.unusedDependencies.forEach` loop
(lines 171–189): safe-mode skip, then deletion from the matching manifest
map when the name is declared there. -/
def depStep (safeMode : Bool) (st : PackageJson × Bool × FixResult)
    (dep : UnusedDependency) : PackageJson × Bool × FixResult :=
  let (pj, modified, fr) := st
  if safeMode ∧ dep.confidence < safeModeFloor then (pj, modified, fr)
  else if dep.type = .dependency ∧ (List.lookup dep.name pj.dependencies).isSome then
    ({ pj with dependencies := pj.dependencies.filter fun nv => nv.1 != dep.name },
     true,
     { fr with dependenciesRemoved := fr.dependenciesRemoved ++ [dep.name] })
  else if dep.type = .devDependency ∧
      (List.lookup dep.name pj.devDependencies).isSome then
    ({ pj with devDependencies := pj.devDependencies.filter fun nv => nv.1 != dep.name },
     true,
     { fr with dependenciesRemoved := fr.dependenciesRemoved ++ [dep.name] })
  else (pj, modified, fr)

/-- `AutoFixer.fixUnusedDependencies` (lines 161–201): read and parse the
manifest (its absence throws, caught as the non-fatal error string), apply
the findings, and rewrite the manifest once when modified. -/
def fixUnusedDependencies (opts : FixerOptions) (result : AnalysisResult)
    (manifest : Option PackageJson) (fr : FixResult) :
    Option PackageJson × FixResult :=
  match manifest with
  | none =>
    (none,
     { fr with errors := fr.errors ++ ["Failed to fix dependencies in package.json"] })
  | some pj =>
    let res := result.unusedDependencies.foldl (depStep opts.safeMode) (pj, false, fr)
    if res.2.1 then
      (some res.1,
       { res.2.2 with filesModified := res.2.2.filesModified ++ [packageJsonPath] })
    else (some res.1, res.2.2)

/-- The mutable world the fixer touches: source files and the manifest. -/
structure SysState where
  fs : FileSystem
  manifest : Option PackageJson
deriving DecidableEq, Repr

/-- The initial `FixResult` of a fix invocation (lines 29–35). -/
def initFixResult : FixResult :=
  { success := true, filesModified := [], importsRemoved := 0,
    dependenciesRemoved := [], errors := [] }

/-- `AutoFixer.runTests` (lines 206–210): the test runner is a stub
(`// TODO: Implement test runner`) that unconditionally returns `true`. -/
def runTests : Bool := true

/-- `AutoFixer.rollback` (lines 215–218): a stub
(`// TODO: Implement rollback using git or backup files`) that only prints
a warning and restores nothing — the state is returned unchanged. -/
def rollback (st : SysState) (_files : List String) : SysState := st

/-- `AutoFixer.fix` (lines 28–62), parameterized by the boolean the test
runner returns, so that the verification-failure branch can be examined;
the source's `runTests` stub always supplies `true`. -/
def fixWith (testsPass : Bool) (opts : FixerOptions) (result : AnalysisResult)
    (st : SysState) : SysState × FixResult :=
  let r1 := fixUnusedImports opts result st.fs initFixResult
  let r2 := fixUnusedDependencies opts result st.manifest r1.2
  let st2 : SysState := { fs := r1.1, manifest := r2.1 }
  if opts.requireTests ∧ r2.2.filesModified ≠ [] then
    if testsPass then (st2, r2.2)
    else
      let fr3 :=
        { r2.2 with
            success := false
            errors := r2.2.errors ++ ["Tests failed after cleanup"] }
      (rollback st2 fr3.filesModified, fr3)
  else (st2, r2.2)

/-- `AutoFixer.fix` as shipped: verification uses the `runTests` stub. -/
def fix (opts : FixerOptions) (result : AnalysisResult) (st : SysState) :
    SysState × FixResult :=
  fixWith runTests opts result st

/-! ## Occurrence predicates and fixtures used by the claims -/

/-- Is this node the member access `N.m` (non-computed, identifier object
and property)? -/
def isTargetMember (N m : String) (obj prop : Expr) (computed : Bool) : Bool :=
  match obj, prop, computed with
  | .ident n, .ident p, false => n == N && p == m
  | _, _, _ => false

/-- Does the member access `N.m` occur somewhere in the expression? -/
def hasMemberNM (N m : String) : Expr → Bool
  | .ident _ => false
  | .strLit _ => false
  | .member obj prop computed =>
    isTargetMember N m obj prop computed ||
      hasMemberNM N m obj || hasMemberNM N m prop
  | .call callee args => hasMemberNM N m callee || hasMemberNM N m args
  | .argsNil => false
  | .argsCons hd tl => hasMemberNM N m hd || hasMemberNM N m tl
  | .objectLit props => hasMemberNM N m props
  | .propsNil => false
  | .propsCons _ key value tl =>
    hasMemberNM N m key || hasMemberNM N m value || hasMemberNM N m tl
  | .jsxElement => false

/-- Is the statement an import declaration? -/
def isImportStmt : Stmt → Bool
  | .importDecl _ _ => true
  | .exprStmt _ => false

/-- C2 fixture: the expression `utils.format(x)`. -/
def memberCallExpr : Expr :=
  .call (.member (.ident "utils") (.ident "format") false)
    (.argsCons (.ident "x") .argsNil)

/-- C2 fixture: `import * as utils from './utils'` followed by
`utils.format(x)`. -/
def prog2 : List Stmt :=
  [.importDecl "./utils" [⟨.namespaceSpec, "utils", 1, 12⟩],
   .exprStmt memberCallExpr]

/-- C3 fixture: the expression `utils.format("x")`. -/
def expr3a : Expr :=
  .call (.member (.ident "utils") (.ident "format") false)
    (.argsCons (.strLit "x") .argsNil)

/-- C3 fixture: a namespace import of `utils` with a member-access use. -/
def prog3a : List Stmt :=
  [.importDecl "./utils" [⟨.namespaceSpec, "utils", 2, 12⟩],
   .exprStmt expr3a]

/-- C3 fixture: a namespace import of `utils` with no reference at all. -/
def prog3b : List Stmt :=
  [.importDecl "./utils" [⟨.namespaceSpec, "utils", 2, 12⟩],
   .exprStmt (.call (.ident "other") .argsNil)]

/-- C5 fixture: a file body that calls `main` and never references
`unused`. -/
def body5 : List Stmt := [.exprStmt (.call (.ident "main") .argsNil)]

/-- C1 fixture: one eligible sole-import finding in each of two files. -/
def result1 : AnalysisResult :=
  { unusedImports :=
      [{ file := "a.ts", line := 1, column := 0, importName := "foo"
         source := "x", confidence := importConfidence },
       { file := "b.ts", line := 1, column := 0, importName := "bar"
         source := "y", confidence := importConfidence }]
    unusedDependencies := [] }

/-- C1 fixture: the two source files before the fix, plus a manifest the
dependency pass leaves untouched. -/
def state1 : SysState :=
  { fs := [("a.ts", "import foo from 'x'\ncode()".toList),
           ("b.ts", "import bar from 'y'\nmore()".toList)]
    manifest := some { dependencies := [], devDependencies := [],
                       peerDependencies := [] } }

/-- C6 witness fixture: a single confidence-0.5 finding for an existing
file, under safe mode. -/
def lowConfFinding : UnusedImport :=
  { file := "w.ts", line := 1, column := 0, importName := "a", source := "x"
    confidence := ⟨1, 2, by decide, by norm_num⟩ }

/-- C8 fixture: a manifest declaring `@babel/core` (never directly
referenced) and an unused plain package, scanned against a file that
references the sibling `@babel/parser`. -/
def pj8 : PackageJson :=
  { dependencies := [("@babel/core", "7.0.0"), ("leftpad", "1.0.0")]
    devDependencies := []
    peerDependencies := [] }

/-- C8 fixture: the scanned files. -/
def files8 : List (Option String) := [some "import x from '@babel/parser'"]

/-- C9 counterexample fixture: `leftpad` declared in both `dependencies`
and `devDependencies`, and referenced nowhere. -/
def pj9 : PackageJson :=
  { dependencies := [("leftpad", "1.0.0")]
    devDependencies := [("leftpad", "1.0.0")]
    peerDependencies := [] }

/-- C10 witness fixture: a manifest whose sole entry is unused. -/
def pj10 : PackageJson :=
  { dependencies := [("leftpad", "1.0.0")],
    devDependencies := [], peerDependencies := [("react", "18.0.0")] }

/-! ## Values of the confidence constants -/

theorem importConfidence_eq : importConfidence = 95 / 100 := by
  rw [importConfidence, Rat.mk'_eq_divInt]
  norm_num [Rat.divInt_eq_div]

theorem depConfidence_eq : depConfidence = 85 / 100 := by
  rw [depConfidence, Rat.mk'_eq_divInt]
  norm_num [Rat.divInt_eq_div]

theorem devDepConfidence_eq : devDepConfidence = 75 / 100 := by
  rw [devDepConfidence, Rat.mk'_eq_divInt]
  norm_num [Rat.divInt_eq_div]

theorem safeModeFloor_eq : safeModeFloor = 8 / 10 := by
  rw [safeModeFloor, Rat.mk'_eq_divInt]
  norm_num [Rat.divInt_eq_div]

/-! ## General lemmas about the embedded operations -/

theorem lookup_isSome_mem_keys {β : Type} (a : String) (l : List (String × β))
    (h : (List.lookup a l).isSome = true) : a ∈ l.map Prod.fst := by
  induction l with
  | nil => simp [List.lookup] at h
  | cons kv tl ih =>
    rw [List.lookup] at h
    by_cases hk : a == kv.1
    · simp only [List.map_cons]
      exact (eq_of_beq hk) ▸ List.mem_cons_self _ _
    · simp only [Bool.not_eq_true] at hk
      rw [hk] at h
      exact List.mem_cons_of_mem _ (ih h)

theorem mem_keys_of_mem_keys_filter {β : Type} (a : String) (p : String × β → Bool)
    (l : List (String × β)) (h : a ∈ (l.filter p).map Prod.fst) :
    a ∈ l.map Prod.fst := by
  obtain ⟨x, hx, rfl⟩ := List.mem_map.1 h
  exact List.mem_map.2 ⟨x, List.mem_of_mem_filter hx, rfl⟩

/-- Every finding of the dependency resolver is a `dependency`-kind finding
at confidence `0.85` or a `devDependency`-kind finding at confidence
`0.75`. -/
theorem detectFrom_char (pj : PackageJson) (used : List (List Char)) :
    ∀ f ∈ detectFrom pj used,
      (f.type = DepType.dependency ∧ f.confidence = depConfidence) ∨
        (f.type = DepType.devDependency ∧ f.confidence = devDepConfidence) := by
  intro f hf
  rcases List.mem_append.1 hf with h | h
  · obtain ⟨nv, _, heq⟩ := List.mem_filterMap.1 h
    left
    split_ifs at heq
    cases heq
    exact ⟨rfl, rfl⟩
  · obtain ⟨nv, _, heq⟩ := List.mem_filterMap.1 h
    right
    split_ifs at heq
    cases heq
    exact ⟨rfl, rfl⟩

/-- The scan loop ignores files whose read failed. -/
theorem scan_foldl_filter (files : List (Option String))
    (acc : List (List Char)) :
    files.foldl
        (fun s f => match f with
          | some content => extractImports content.toList s
          | none => s) acc =
      (files.filter Option.isSome).foldl
        (fun s f => match f with
          | some content => extractImports content.toList s
          | none => s) acc := by
  induction files generalizing acc with
  | nil => rfl
  | cons hd tl ih =>
    cases hd with
    | none => simpa using ih acc
    | some content => simpa using ih (extractImports content.toList acc)

/-- `depStep` never touches the `peerDependencies` map. -/
theorem depStep_peer (safeMode : Bool) (st : PackageJson × Bool × FixResult)
    (dep : UnusedDependency) :
    (depStep safeMode st dep).1.peerDependencies = st.1.peerDependencies := by
  obtain ⟨pj, m, fr⟩ := st
  rw [depStep]
  split_ifs <;> rfl

theorem foldl_depStep_peer (safeMode : Bool) (deps : List UnusedDependency)
    (st : PackageJson × Bool × FixResult) :
    ((deps.foldl (depStep safeMode) st).1).peerDependencies =
      st.1.peerDependencies := by
  induction deps generalizing st with
  | nil => rfl
  | cons hd tl ih => rw [List.foldl_cons, ih, depStep_peer]

/-! ## Claim C7 -/

/-- C7: `UnusedDependenciesDetector.detect` fails with a hard error exactly
when the project-root manifest is absent; a read failure of an individual
scanned file never fails `detect` — the file is merely excluded from the
usage scan and detection proceeds over the remaining (readable) files. -/
theorem claim7_manifest_absence_fatal_read_failures_swallowed :
    (∀ files : List (Option String),
      detect none files = Except.error "package.json not found") ∧
    (∀ (pj : PackageJson) (files : List (Option String)),
      detect (some pj) files =
        Except.ok (detectFrom pj (usedPackagesOf (files.filter Option.isSome)))) := by
  refine ⟨fun _ => rfl, fun pj files => ?_⟩
  show Except.ok (detectFrom pj (usedPackagesOf files)) = _
  rw [usedPackagesOf, usedPackagesOf, scan_foldl_filter]

/-! ## Claim C8 -/

/-- C8: a scoped dependency never directly imported is not flagged when a
scanned file imports a sibling package under the same scope: the usage
test is direct membership or, for names with a scope segment, sharing the
scope prefix with any used package. -/
theorem claim8_scoped_sibling_confirmation
    (pj : PackageJson) (files : List (Option String)) (name version : String)
    (_hdecl : (name, version) ∈ pj.dependencies)
    (_hscoped : name.toList.head? = some '@')
    (hslash : name.toList.contains '/' = true)
    (hsib : ∃ u ∈ usedPackagesOf files,
      ((splitOnChar '/' name.toList).getD 0 [] ++ ['/']).isPrefixOf u = true) :
    ∀ f ∈ detectFrom pj (usedPackagesOf files), f.name ≠ name := by
  have hused : isPackageUsed name.toList (usedPackagesOf files) = true := by
    simp only [isPackageUsed, hslash]
    split_ifs with h1
    · rfl
    · exact List.any_eq_true.2 hsib
  intro f hf heq
  rcases List.mem_append.1 hf with h | h
  · obtain ⟨nv, _, hsome⟩ := List.mem_filterMap.1 h
    split_ifs at hsome with hu
    cases hsome
    rw [show nv.1 = name from heq] at hu
    exact hu hused
  · obtain ⟨nv, _, hsome⟩ := List.mem_filterMap.1 h
    split_ifs at hsome with _ hu
    cases hsome
    rw [show nv.1 = name from heq] at hu
    exact hu hused

/-- C8 witness: on the fixture, `@babel/core` is not among the emitted
findings (here: the one finding, for `leftpad`, is not about it). -/
theorem claim8_witness :
    ({ name := "leftpad", version := "1.0.0", type := DepType.dependency
       confidence := depConfidence
       reason := "Not imported in any source file" } : UnusedDependency).name ≠
      "@babel/core" :=
  claim8_scoped_sibling_confirmation pj8 files8 "@babel/core" "7.0.0"
    (by decide) (by decide) (by decide)
    -- sibling scanned from `files8` by the three-pattern scan
    ⟨"@babel/parser".toList, by decide, by decide⟩
    _ (by decide)

/-! ## Claim C10 -/

/-- C10: the dependency detector never emits a `peerDependency`-kind
finding — only `dependencies` and `devDependencies` entries can be flagged
— and the fixer never deletes (or otherwise alters) the manifest's
`peerDependencies` map. -/
theorem claim10_no_peer_dependency_findings :
    (∀ (pj : PackageJson) (used : List (List Char)),
      ∀ f ∈ detectFrom pj used, f.type ≠ DepType.peerDependency) ∧
    (∀ (opts : FixerOptions) (result : AnalysisResult)
        (manifest : Option PackageJson) (fr : FixResult),
      ((fixUnusedDependencies opts result manifest fr).1).map
          PackageJson.peerDependencies =
        manifest.map PackageJson.peerDependencies) := by
  constructor
  · intro pj used f hf
    rcases detectFrom_char pj used f hf with ⟨ht, _⟩ | ⟨ht, _⟩ <;> simp [ht]
  · intro opts result manifest fr
    cases manifest with
    | none => rfl
    | some pj =>
      rw [fixUnusedDependencies]
      split <;> simp [foldl_depStep_peer]

/-- C10 witness: the finding `detect` emits for the fixture is not of
`peerDependency` kind. -/
theorem claim10_witness :
    ({ name := "leftpad", version := "1.0.0", type := DepType.dependency
       confidence := depConfidence
       reason := "Not imported in any source file" } : UnusedDependency).type ≠
      DepType.peerDependency :=
  claim10_no_peer_dependency_findings.1 pj10 [] _ (by decide)

/-! ## Lemmas about the symbol-model extractor -/

theorem isTargetMember_spec {N m : String} {obj prop : Expr} {computed : Bool}
    (h : isTargetMember N m obj prop computed = true) :
    obj = Expr.ident N ∧ prop = Expr.ident m := by
  unfold isTargetMember at h
  split at h
  · next n p =>
    rw [Bool.and_eq_true, beq_iff_eq, beq_iff_eq] at h
    exact ⟨by rw [h.1], by rw [h.2]⟩
  · cases h

/-- If `N.m` occurs in an expression, the `Identifier` visitor records both
`N` and `m` (as two separate entries). -/
theorem hasMemberNM_mem (N m : String) (e : Expr)
    (h : hasMemberNM N m e = true) :
    N ∈ usedIdents e ∧ m ∈ usedIdents e := by
  induction e with
  | ident n => simp [hasMemberNM] at h
  | strLit s => simp [hasMemberNM] at h
  | argsNil => simp [hasMemberNM] at h
  | propsNil => simp [hasMemberNM] at h
  | jsxElement => simp [hasMemberNM] at h
  | member obj prop computed iho ihp =>
    simp only [hasMemberNM, Bool.or_eq_true] at h
    rcases h with (h | h) | h
    · obtain ⟨rfl, rfl⟩ := isTargetMember_spec h
      exact ⟨by simp [usedIdents], by simp [usedIdents]⟩
    · obtain ⟨h1, h2⟩ := iho h
      exact ⟨by simp [usedIdents, List.mem_append, h1],
        by simp [usedIdents, List.mem_append, h2]⟩
    · obtain ⟨h1, h2⟩ := ihp h
      exact ⟨by simp [usedIdents, List.mem_append, h1],
        by simp [usedIdents, List.mem_append, h2]⟩
  | call callee args ihc iha =>
    simp only [hasMemberNM, Bool.or_eq_true] at h
    rcases h with h | h
    · obtain ⟨h1, h2⟩ := ihc h
      exact ⟨by simp [usedIdents, List.mem_append, h1],
        by simp [usedIdents, List.mem_append, h2]⟩
    · obtain ⟨h1, h2⟩ := iha h
      exact ⟨by simp [usedIdents, List.mem_append, h1],
        by simp [usedIdents, List.mem_append, h2]⟩
  | argsCons hd tl ihh iht =>
    simp only [hasMemberNM, Bool.or_eq_true] at h
    rcases h with h | h
    · obtain ⟨h1, h2⟩ := ihh h
      exact ⟨by simp [usedIdents, List.mem_append, h1],
        by simp [usedIdents, List.mem_append, h2]⟩
    · obtain ⟨h1, h2⟩ := iht h
      exact ⟨by simp [usedIdents, List.mem_append, h1],
        by simp [usedIdents, List.mem_append, h2]⟩
  | objectLit props ihp =>
    simp only [hasMemberNM] at h
    obtain ⟨h1, h2⟩ := ihp h
    exact ⟨by simp [usedIdents, h1], by simp [usedIdents, h2]⟩
  | propsCons computed key value tl ihk ihv iht =>
    simp only [hasMemberNM, Bool.or_eq_true] at h
    rcases h with (h | h) | h
    · -- inside the key: a member access is never a skipped identifier key
      obtain ⟨h1, h2⟩ := ihk h
      have hkey : propKeyIdents (usedIdents key) computed key = usedIdents key := by
        unfold propKeyIdents
        split
        · simp [hasMemberNM] at h
        · rfl
      exact ⟨by simp [usedIdents, List.mem_append, hkey, h1],
        by simp [usedIdents, List.mem_append, hkey, h2]⟩
    · obtain ⟨h1, h2⟩ := ihv h
      exact ⟨by simp [usedIdents, List.mem_append, h1],
        by simp [usedIdents, List.mem_append, h2]⟩
    · obtain ⟨h1, h2⟩ := iht h
      exact ⟨by simp [usedIdents, List.mem_append, h1],
        by simp [usedIdents, List.mem_append, h2]⟩

/-- Identifiers recorded for a statement of the program are in the
program's scanned set. -/
theorem mem_parseCode_used {x : String} {e : Expr} {prog : List Stmt}
    (hst : Stmt.exprStmt e ∈ prog) (hx : x ∈ usedIdents e) :
    x ∈ (parseCode prog).usedIdentifiers :=
  List.mem_flatMap.2 ⟨Stmt.exprStmt e, hst, hx⟩

/-- Import specifiers of a declaration of the program appear in the
program's import list. -/
theorem mem_parseCode_imports {src : String} {specs : List ImportSpec}
    {prog : List Stmt} {s : ImportSpec} {info : ImportInfo}
    (hst : Stmt.importDecl src specs ∈ prog) (hs : s ∈ specs)
    (hinfo : specToInfo src s = some info) :
    info ∈ (parseCode prog).imports :=
  List.mem_flatMap.2
    ⟨Stmt.importDecl src specs, hst, List.mem_filterMap.2 ⟨s, hs, hinfo⟩⟩

/-- An import whose local name is in the scanned set is never resolved to
a finding. -/
theorem resolveImport_eq_none (path : String) (analysis : FileAnalysis)
    (imp : ImportInfo) (h : imp.name ∈ analysis.usedIdentifiers) :
    resolveImport path analysis imp = none := by
  have hc : analysis.usedIdentifiers.contains imp.name = true :=
    List.elem_eq_true_of_mem h
  simp only [resolveImport, hc]
  split_ifs <;> simp_all

/-- No finding ever carries the local name of a used import. -/
theorem findUnusedImportsA_ne_of_used (path : String) (analysis : FileAnalysis)
    (name : String) (h : name ∈ analysis.usedIdentifiers) :
    ∀ f ∈ findUnusedImportsA path analysis, f.importName ≠ name := by
  intro f hf heq
  obtain ⟨imp, _, hsome⟩ := List.mem_filterMap.1 hf
  by_cases hn : imp.name = name
  · rw [resolveImport_eq_none path analysis imp (hn ▸ h)] at hsome
    cases hsome
  · rw [resolveImport] at hsome
    split_ifs at hsome <;> cases hsome <;> exact hn heq

/-- An import is resolved to its finding when its name is absent from the
scanned set, it is not the JSX-runtime exception, and no scanned entry is
prefixed by `name.`. -/
theorem resolveImport_eq_some (path : String) (analysis : FileAnalysis)
    (imp : ImportInfo)
    (hc : analysis.usedIdentifiers.contains imp.name = false)
    (hr : (imp.name == "React" && analysis.hasJSX) = false)
    (hns : (imp.isNamespace && analysis.usedIdentifiers.any
      fun id => (imp.name ++ ".").toList.isPrefixOf id.toList) = false) :
    resolveImport path analysis imp =
      some
        { file := path, line := imp.line, column := imp.column
          importName := imp.name, source := imp.source
          confidence := importConfidence } := by
  rw [resolveImport]
  simp only [hc, hr, hns, Bool.false_eq_true, if_false]

/-! ## Claim C2 -/

/-- C2 counterexample: in the parsed file
`import * as utils from './utils'; utils.format(x)` — which does contain a
member access on the namespace-imported name `utils` — the scanned
identifier set is `{utils, format, x}`: it contains **no** entry prefixed
by `"utils."`, so no compound identifier string is ever stored. -/
theorem claim2_counterexample :
    hasMemberNM "utils" "format" memberCallExpr = true ∧
      (parseCode prog2).usedIdentifiers = ["utils", "format", "x"] ∧
      ((parseCode prog2).usedIdentifiers.any
        fun id => ("utils." : String).toList.isPrefixOf id.toList) = false := by
  decide

/-- C2 (amended): a member access `N.m` on a namespace-imported local name
contributes the object name `N` and the property name `m` to
`usedIdentifiers` as two separate entries — not one compound string — and
the resolver therefore treats the import as used through the *direct
membership* check on `N` (no finding for `N` is emitted), not through the
namespace prefix scan. -/
theorem claim2_member_access_separate_entries (N m : String) (e : Expr)
    (prog : List Stmt) (path : String) (hst : Stmt.exprStmt e ∈ prog)
    (hocc : hasMemberNM N m e = true) :
    N ∈ (parseCode prog).usedIdentifiers ∧
      m ∈ (parseCode prog).usedIdentifiers ∧
      ∀ f ∈ findUnusedImportsPr path prog, f.importName ≠ N := by
  obtain ⟨h1, h2⟩ := hasMemberNM_mem N m e hocc
  have hN := mem_parseCode_used hst h1
  exact ⟨hN, mem_parseCode_used hst h2,
    findUnusedImportsA_ne_of_used path (parseCode prog) N hN⟩

/-- C2 witness: the amended statement on the concrete fixture. -/
theorem claim2_witness :
    "utils" ∈ (parseCode prog2).usedIdentifiers ∧
      "format" ∈ (parseCode prog2).usedIdentifiers ∧
      ∀ f ∈ findUnusedImportsPr "b.ts" prog2, f.importName ≠ "utils" :=
  claim2_member_access_separate_entries "utils" "format" memberCallExpr prog2
    "b.ts" (by decide) (by decide)

/-! ## Claim C3 -/

/-- C3: for a file with a namespace import `import * as utils from
'./utils'`: (a) when the body contains a member-access reference
`utils.format(...)`, no finding is emitted for `utils`; (b) when the body
contains no reference to `utils` at all (neither the bare name nor any
`utils.`-prefixed entry in the scanned set), a finding for the import is
emitted, carrying the fixed confidence 0.95. -/
theorem claim3_namespace_import_detection (prog : List Stmt) (path : String)
    (l c : Nat)
    (himp : Stmt.importDecl "./utils" [⟨SpecKind.namespaceSpec, "utils", l, c⟩] ∈ prog) :
    ((∃ e, Stmt.exprStmt e ∈ prog ∧ hasMemberNM "utils" "format" e = true) →
      ∀ f ∈ findUnusedImportsPr path prog, f.importName ≠ "utils") ∧
    ((∀ s ∈ (parseCode prog).usedIdentifiers,
        s ≠ "utils" ∧ ¬("utils." : String).toList.isPrefixOf s.toList) →
      { file := path, line := l, column := c, importName := "utils"
        source := "./utils"
        confidence := importConfidence } ∈ findUnusedImportsPr path prog) := by
  constructor
  · rintro ⟨e, hst, hocc⟩
    have hN := mem_parseCode_used hst (hasMemberNM_mem "utils" "format" e hocc).1
    exact findUnusedImportsA_ne_of_used path (parseCode prog) "utils" hN
  · intro hnone
    have hinfo : specToInfo "./utils" ⟨SpecKind.namespaceSpec, "utils", l, c⟩ =
        some { name := "utils", source := "./utils", line := l, column := c
               isDefault := false, isNamespace := true } := rfl
    have hmem := mem_parseCode_imports himp (List.mem_singleton.2 rfl) hinfo
    refine List.mem_filterMap.2 ⟨_, hmem, ?_⟩
    refine resolveImport_eq_some path (parseCode prog) _ ?_ rfl ?_
    · by_contra hc
      rw [Bool.not_eq_false] at hc
      exact (hnone _ (List.mem_of_elem_eq_true hc)).1 rfl
    · by_contra hany
      rw [Bool.not_eq_false, Bool.and_eq_true, List.any_eq_true] at hany
      obtain ⟨-, s, hs, hpre⟩ := hany
      exact (hnone s hs).2 hpre

/-- C3 witness: both halves on concrete fixtures — with a
`utils.format("x")` reference no finding names `utils`; with no reference
the finding for the import (line 2, confidence 0.95) is emitted. -/
theorem claim3_witness :
    (∀ f ∈ findUnusedImportsPr "u.ts" prog3a, f.importName ≠ "utils") ∧
      { file := "u.ts", line := 2, column := 12, importName := "utils"
        source := "./utils"
        confidence := importConfidence } ∈ findUnusedImportsPr "u.ts" prog3b :=
  ⟨(claim3_namespace_import_detection prog3a "u.ts" 2 12 (by decide)).1
      ⟨expr3a, by decide, by decide⟩,
    (claim3_namespace_import_detection prog3b "u.ts" 2 12 (by decide)).2
      (by decide)⟩

/-! ## Claim C1 -/

/-- C1 (code bug): the verification-failure path does not restore files.
With the test-verification flag set and the external collaborator
reporting failure after two files were modified, the outcome does report
`success = false` with `"Tests failed after cleanup"` listed — but both
files keep their *mutated* content (`rollback` is a stub that only prints
a warning), instead of being restored to their pre-mutation content as
specified.  Moreover the shipped `runTests` stub returns `true`
unconditionally, so the fix as shipped reports success on the same
input. -/
theorem claim1_verification_failure_files_not_restored :
    (fixWith false { safeMode := true, requireTests := true } result1
        state1).2.success = false ∧
      "Tests failed after cleanup" ∈
        (fixWith false { safeMode := true, requireTests := true } result1
          state1).2.errors ∧
      (fixWith false { safeMode := true, requireTests := true } result1
          state1).2.filesModified = ["a.ts", "b.ts"] ∧
      -- pre-mutation contents:
      List.lookup "a.ts" state1.fs = some "import foo from 'x'\ncode()".toList ∧
      List.lookup "b.ts" state1.fs = some "import bar from 'y'\nmore()".toList ∧
      -- post-"rollback" contents: still mutated, not restored
      List.lookup "a.ts"
          (fixWith false { safeMode := true, requireTests := true } result1
            state1).1.fs = some "code()".toList ∧
      List.lookup "b.ts"
          (fixWith false { safeMode := true, requireTests := true } result1
            state1).1.fs = some "more()".toList ∧
      -- the shipped test runner is a stub: the failure path is unreachable
      runTests = true ∧
      (fix { safeMode := true, requireTests := true } result1
          state1).2.success = true := by
  decide

/-! ## Claim C4 -/

theorem insertDesc_perm (x : UnusedImport) (l : List UnusedImport) :
    (insertDesc x l).Perm (x :: l) := by
  induction l with
  | nil => exact List.Perm.refl _
  | cons y ys ih =>
    rw [insertDesc]
    split_ifs
    · exact List.Perm.refl _
    · exact (ih.cons y).trans (List.Perm.swap x y ys)

theorem sortByLineDesc_perm (l : List UnusedImport) :
    (sortByLineDesc l).Perm l := by
  induction l with
  | nil => exact List.Perm.refl _
  | cons x xs ih => exact (insertDesc_perm x (sortByLineDesc xs)).trans (ih.cons x)

theorem insertDesc_sorted (x : UnusedImport) (l : List UnusedImport)
    (h : l.Sorted fun a b => b.line ≤ a.line) :
    (insertDesc x l).Sorted fun a b => b.line ≤ a.line := by
  induction l with
  | nil => simp [insertDesc]
  | cons y ys ih =>
    rw [List.sorted_cons] at h
    rw [insertDesc]
    split_ifs with hlt
    · rw [List.sorted_cons]
      refine ⟨?_, List.sorted_cons.2 h⟩
      intro z hz
      rcases List.mem_cons.1 hz with rfl | hz
    /- `z = y`: immediate; `z ∈ ys`: through `y`. -/
      · exact le_of_lt hlt
      · exact le_trans (h.1 z hz) (le_of_lt hlt)
    · rw [List.sorted_cons]
      refine ⟨?_, ih h.2⟩
      intro z hz
      rcases List.mem_cons.1 ((insertDesc_perm x ys).mem_iff.1 hz) with rfl | hz
      · exact le_of_not_lt hlt
      · exact h.1 z hz

theorem sortByLineDesc_sorted (l : List UnusedImport) :
    (sortByLineDesc l).Sorted fun a b => b.line ≤ a.line := by
  induction l with
  | nil => simp [sortByLineDesc]
  | cons x xs ih => exact insertDesc_sorted x (sortByLineDesc xs) ih

/-- C4: within a file, eligible findings are applied in descending order
of recorded line number (the processing sequence is a permutation of the
file's findings, sorted descending); concretely, for a file whose lines 3
and 7 each hold a sole-import finding (given in ascending order in the
input), the line-7 import is removed first, both original import lines are
absent afterwards, and `importsRemoved` grows by exactly 2. -/
theorem claim4_descending_line_order :
    (∀ imps : List UnusedImport,
      ((sortByLineDesc imps).Sorted fun a b => b.line ≤ a.line) ∧
        (sortByLineDesc imps).Perm imps) ∧
    (∀ (opts : FixerOptions) (path : String) (content : List Char)
        (a0 a1 l3 a3 a4 a5 l7 : List Char) (rest : List (List Char))
        (c1 c2 : Nat) (n1 s1 n2 s2 : String) (deps : List UnusedDependency),
      splitOnChar '\n' content = a0 :: a1 :: l3 :: a3 :: a4 :: a5 :: l7 :: rest →
      jsIncludes l3 n1.toList = true → jsIncludes l3 s1.toList = true →
      isOnlyImportOnLine l3 n1.toList = true →
      jsIncludes l7 n2.toList = true → jsIncludes l7 s2.toList = true →
      isOnlyImportOnLine l7 n2.toList = true →
      fixUnusedImports opts
          { unusedImports :=
              [{ file := path, line := 3, column := c1, importName := n1
                 source := s1, confidence := importConfidence },
               { file := path, line := 7, column := c2, importName := n2
                 source := s2, confidence := importConfidence }]
            unusedDependencies := deps }
          [(path, content)] initFixResult =
        ([(path, joinChar '\n' (a0 :: a1 :: a3 :: a4 :: a5 :: rest))],
         { initFixResult with importsRemoved := 2, filesModified := [path] })) := by
  refine ⟨fun imps => ⟨sortByLineDesc_sorted imps, sortByLineDesc_perm imps⟩, ?_⟩
  intro opts path content a0 a1 l3 a3 a4 a5 l7 rest c1 c2 n1 s1 n2 s2 deps
  intro hsplit h31 h32 h33 h71 h72 h73
  have h31' : jsIncludes l3 n1.data = true := h31
  have h32' : jsIncludes l3 s1.data = true := h32
  have h33' : isOnlyImportOnLine l3 n1.data = true := h33
  have h71' : jsIncludes l7 n2.data = true := h71
  have h72' : jsIncludes l7 s2.data = true := h72
  have h73' : isOnlyImportOnLine l7 n2.data = true := h73
  simp [fixUnusedImports, groupByFile, groupAdd, fixImportsFile, hsplit,
    sortByLineDesc, insertDesc, importStep, writeFS, initFixResult,
    h31', h32', h33', h71', h72', h73',
    show ¬(importConfidence < safeModeFloor) from by decide]

/-- C4 witness: the concrete two-import file; the input findings are given
in ascending line order, the result is the file with lines 3 and 7 gone
and `importsRemoved = 2`. -/
theorem claim4_witness :
    fixUnusedImports defaultFixerOptions
        { unusedImports :=
            [{ file := "c.ts", line := 3, column := 0, importName := "a"
               source := "x", confidence := importConfidence },
             { file := "c.ts", line := 7, column := 0, importName := "b"
               source := "y", confidence := importConfidence }]
          unusedDependencies := [] }
        [("c.ts",
          "// one\n\nimport a from 'x'\ncode1\ncode2\n\nimport b from 'y'\ntail".toList)]
        initFixResult =
      ([("c.ts", "// one\n\ncode1\ncode2\n\ntail".toList)],
       { initFixResult with importsRemoved := 2, filesModified := ["c.ts"] }) :=
  claim4_descending_line_order.2 defaultFixerOptions "c.ts" _
    "// one".toList "".toList "import a from 'x'".toList "code1".toList
    "code2".toList "".toList "import b from 'y'".toList ["tail".toList]
    0 0 "a" "x" "b" "y" []
    (by decide) (by decide) (by decide) (by decide) (by decide) (by decide)
    (by decide)

/-! ## Claim C5 -/

/-- A program with no import declaration extracts no imports. -/
theorem parseCode_imports_nil (body : List Stmt)
    (hbody : ∀ s ∈ body, isImportStmt s = false) :
    (parseCode body).imports = [] := by
  induction body with
  | nil => rfl
  | cons s tl ih =>
    have hs := hbody s (List.mem_cons_self _ _)
    have htl := ih fun t ht => hbody t (List.mem_cons_of_mem _ ht)
    cases s with
    | importDecl src specs => simp [isImportStmt] at hs
    | exprStmt e =>
      show stmtImports (Stmt.exprStmt e) ++ (parseCode tl).imports = []
      rw [htl]
      rfl

/-- C5: for a file whose only import declaration is
`import unused from 'pkg'` (line 1) with `unused` never referenced in the
body, detection yields exactly one finding (confidence 0.95); applying the
fixer removes the entire line and increments `importsRemoved` by exactly
1; and detection on the resulting file — whose program is the body,
containing no import declaration — yields zero findings. -/
theorem claim5_import_fix_round_trip (path : String) (body : List Stmt)
    (c : Nat) (content : List Char) (bs : List (List Char))
    (deps : List UnusedDependency)
    (hbody : ∀ s ∈ body, isImportStmt s = false)
    (hused : "unused" ∉ (parseCode body).usedIdentifiers)
    (hsplit : splitOnChar '\n' content =
      "import unused from 'pkg'".toList :: bs) :
    findUnusedImportsPr path
        (Stmt.importDecl "pkg" [⟨SpecKind.default, "unused", 1, c⟩] :: body) =
      [{ file := path, line := 1, column := c, importName := "unused"
         source := "pkg", confidence := importConfidence }] ∧
    fixUnusedImports defaultFixerOptions
        { unusedImports :=
            findUnusedImportsPr path
              (Stmt.importDecl "pkg" [⟨SpecKind.default, "unused", 1, c⟩] :: body)
          unusedDependencies := deps }
        [(path, content)] initFixResult =
      ([(path, joinChar '\n' bs)],
       { initFixResult with importsRemoved := 1, filesModified := [path] }) ∧
    findUnusedImportsPr path body = [] := by
  have himports : (parseCode
      (Stmt.importDecl "pkg" [⟨SpecKind.default, "unused", 1, c⟩] :: body)).imports =
        [{ name := "unused", source := "pkg", line := 1, column := c
           isDefault := true, isNamespace := false }] := by
    show stmtImports (Stmt.importDecl "pkg" [⟨SpecKind.default, "unused", 1, c⟩]) ++
        (parseCode body).imports = _
    rw [parseCode_imports_nil body hbody]
    rfl
  have hcontains : (parseCode
      (Stmt.importDecl "pkg" [⟨SpecKind.default, "unused", 1, c⟩] :: body)).usedIdentifiers.contains
        "unused" = false := by
    rw [← Bool.not_eq_true]
    intro hc
    exact hused (List.mem_of_elem_eq_true hc)
  have hfind : findUnusedImportsPr path
      (Stmt.importDecl "pkg" [⟨SpecKind.default, "unused", 1, c⟩] :: body) =
        [{ file := path, line := 1, column := c, importName := "unused"
           source := "pkg", confidence := importConfidence }] := by
    rw [findUnusedImportsPr, findUnusedImportsA, himports]
    rw [List.filterMap_cons,
      resolveImport_eq_some path
        (parseCode
          (Stmt.importDecl "pkg" [⟨SpecKind.default, "unused", 1, c⟩] :: body))
        { name := "unused", source := "pkg", line := 1, column := c
          isDefault := true, isNamespace := false }
        hcontains rfl rfl]
    rfl
  refine ⟨hfind, ?_, ?_⟩
  · rw [hfind]
    simp +decide [fixUnusedImports, groupByFile, groupAdd, fixImportsFile,
      hsplit, sortByLineDesc, insertDesc, importStep, writeFS, initFixResult,
      defaultFixerOptions,
      show ¬(importConfidence < safeModeFloor) from by decide]
  · rw [findUnusedImportsPr, findUnusedImportsA, parseCode_imports_nil body hbody]
    rfl

/-- C5 witness: the concrete one-import file `import unused from 'pkg'`
followed by `main()`. -/
theorem claim5_witness :
    findUnusedImportsPr "a.ts"
        (Stmt.importDecl "pkg" [⟨SpecKind.default, "unused", 1, 7⟩] :: body5) =
      [{ file := "a.ts", line := 1, column := 7, importName := "unused"
         source := "pkg", confidence := importConfidence }] ∧
    fixUnusedImports defaultFixerOptions
        { unusedImports :=
            findUnusedImportsPr "a.ts"
              (Stmt.importDecl "pkg" [⟨SpecKind.default, "unused", 1, 7⟩] :: body5)
          unusedDependencies := [] }
        [("a.ts", "import unused from 'pkg'\nmain()".toList)] initFixResult =
      ([("a.ts", "main()".toList)],
       { initFixResult with importsRemoved := 1, filesModified := ["a.ts"] }) ∧
    findUnusedImportsPr "a.ts" body5 = [] :=
  claim5_import_fix_round_trip "a.ts" body5 7
    "import unused from 'pkg'\nmain()".toList ["main()".toList] []
    (by decide) (by decide) (by decide)

/-! ## Claim C6 -/

/-- In safe mode, grouping skips exactly the findings below the confidence
floor: pre-filtering them away changes nothing. -/
theorem groupByFile_filter_aux (imps : List UnusedImport)
    (acc : List (String × List UnusedImport)) :
    imps.foldl
        (fun acc imp =>
          if (true : Bool) ∧ imp.confidence < safeModeFloor then acc
          else groupAdd acc imp) acc =
      (imps.filter fun i => !decide (i.confidence < safeModeFloor)).foldl
        (fun acc imp =>
          if (true : Bool) ∧ imp.confidence < safeModeFloor then acc
          else groupAdd acc imp) acc := by
  induction imps generalizing acc with
  | nil => rfl
  | cons imp tl ih =>
    by_cases h : imp.confidence < safeModeFloor
    · rw [List.foldl_cons, if_pos ⟨rfl, h⟩, List.filter_cons,
        if_neg (by simp [h]), ih]
    · rw [List.foldl_cons, if_neg (by simp [h]), List.filter_cons,
        if_pos (by simp [h]), List.foldl_cons, if_neg (by simp [h]), ih]

theorem groupByFile_filter (imps : List UnusedImport) :
    groupByFile true imps =
      groupByFile true (imps.filter fun i => !decide (i.confidence < safeModeFloor)) :=
  groupByFile_filter_aux imps []

/-- In safe mode, `depStep` skips exactly the findings below the floor. -/
theorem depStep_below_floor (st : PackageJson × Bool × FixResult)
    (dep : UnusedDependency) (h : dep.confidence < safeModeFloor) :
    depStep true st dep = st := by
  obtain ⟨pj, m, fr⟩ := st
  rw [depStep, if_pos ⟨rfl, h⟩]

theorem foldl_depStep_filter (deps : List UnusedDependency)
    (st : PackageJson × Bool × FixResult) :
    deps.foldl (depStep true) st =
      (deps.filter fun d => !decide (d.confidence < safeModeFloor)).foldl
        (depStep true) st := by
  induction deps generalizing st with
  | nil => rfl
  | cons dep tl ih =>
    by_cases h : dep.confidence < safeModeFloor
    · rw [List.foldl_cons, depStep_below_floor st dep h, List.filter_cons,
        if_neg (by simp [h]), ih]
    · rw [List.foldl_cons, List.filter_cons, if_pos (by simp [h]),
        List.foldl_cons, ih]

/-- C6: with safe mode enabled, findings below the `0.8` floor contribute
nothing to a fix run — neither file nor manifest mutation, nor any record
in the outcome: the whole run equals the run on the input with sub-floor
findings dropped (the fixer reads but never alters its detection input). -/
theorem claim6_safe_mode_floor (opts : FixerOptions) (hsafe : opts.safeMode = true)
    (result : AnalysisResult) (st : SysState) :
    fix opts result st =
      fix opts
        { unusedImports :=
            result.unusedImports.filter fun i => !decide (i.confidence < safeModeFloor)
          unusedDependencies :=
            result.unusedDependencies.filter fun d =>
              !decide (d.confidence < safeModeFloor) }
        st := by
  have hg : groupByFile opts.safeMode result.unusedImports =
      groupByFile opts.safeMode
        (result.unusedImports.filter fun i => !decide (i.confidence < safeModeFloor)) := by
    rw [hsafe]
    exact groupByFile_filter _
  have h1 : ∀ fs fr,
      fixUnusedImports opts result fs fr =
        fixUnusedImports opts
          { unusedImports :=
              result.unusedImports.filter fun i => !decide (i.confidence < safeModeFloor)
            unusedDependencies :=
              result.unusedDependencies.filter fun d =>
                !decide (d.confidence < safeModeFloor) } fs fr := by
    intro fs fr
    simp only [fixUnusedImports]
    rw [hg]
  have h2 : ∀ fr,
      fixUnusedDependencies opts result st.manifest fr =
        fixUnusedDependencies opts
          { unusedImports :=
              result.unusedImports.filter fun i => !decide (i.confidence < safeModeFloor)
            unusedDependencies :=
              result.unusedDependencies.filter fun d =>
                !decide (d.confidence < safeModeFloor) } st.manifest fr := by
    intro fr
    cases hm : st.manifest with
    | none => rfl
    | some pj =>
      simp only [fixUnusedDependencies, hsafe]
      rw [foldl_depStep_filter]
  simp only [fix, fixWith, h1, h2]

/-- C6 witness: a fix run over only the confidence-0.5 finding equals the
run over no findings at all (which, concretely, touches nothing and
records nothing). -/
theorem claim6_witness :
    fix { safeMode := true, requireTests := false }
        { unusedImports := [lowConfFinding], unusedDependencies := [] }
        { fs := [("w.ts", "import a from 'x'".toList)], manifest := none } =
      fix { safeMode := true, requireTests := false }
        { unusedImports := [], unusedDependencies := [] }
        { fs := [("w.ts", "import a from 'x'".toList)], manifest := none } := by
  have h := claim6_safe_mode_floor { safeMode := true, requireTests := false }
    rfl { unusedImports := [lowConfFinding], unusedDependencies := [] }
    { fs := [("w.ts", "import a from 'x'".toList)], manifest := none }
  rw [h]
  rfl

/-! ## Claim C9 -/

/-- `fixImportsFile` never touches `dependenciesRemoved`. -/
theorem fixImportsFile_depsRemoved (fs : FileSystem) (fr : FixResult)
    (path : String) (imps : List UnusedImport) :
    (fixImportsFile fs fr path imps).2.dependenciesRemoved =
      fr.dependenciesRemoved := by
  rw [fixImportsFile]
  rcases List.lookup path fs with _ | content
  · rfl
  · dsimp only
    split <;> rfl

/-- The imports pass never touches `dependenciesRemoved`. -/
theorem fixUnusedImports_depsRemoved (opts : FixerOptions)
    (result : AnalysisResult) (fs : FileSystem) (fr : FixResult) :
    (fixUnusedImports opts result fs fr).2.dependenciesRemoved =
      fr.dependenciesRemoved := by
  rw [fixUnusedImports]
  generalize groupByFile opts.safeMode result.unusedImports = groups
  induction groups generalizing fs fr with
  | nil => rfl
  | cons kv tl ih =>
    rw [List.foldl_cons]
    rw [show fixImportsFile fs fr kv.1 kv.2 =
        ((fixImportsFile fs fr kv.1 kv.2).1, (fixImportsFile fs fr kv.1 kv.2).2)
      from rfl] at *
    rw [ih, fixImportsFile_depsRemoved]

/-- Invariant of the dependency pass in safe mode over detector-produced
findings: `devDependencies` is preserved and every name added to
`dependenciesRemoved` is a declared regular-dependency name. -/
theorem foldl_depStep_inv (pj : PackageJson) :
    ∀ (findings : List UnusedDependency),
      (∀ f ∈ findings,
        (f.type = DepType.dependency ∧ f.confidence = depConfidence) ∨
          (f.type = DepType.devDependency ∧ f.confidence = devDepConfidence)) →
      ∀ st : PackageJson × Bool × FixResult,
        st.1.devDependencies = pj.devDependencies →
        (∀ n ∈ st.1.dependencies.map Prod.fst, n ∈ pj.dependencies.map Prod.fst) →
        (∀ n ∈ st.2.2.dependenciesRemoved, n ∈ pj.dependencies.map Prod.fst) →
        (findings.foldl (depStep true) st).1.devDependencies =
            pj.devDependencies ∧
          ∀ n ∈ (findings.foldl (depStep true) st).2.2.dependenciesRemoved,
            n ∈ pj.dependencies.map Prod.fst
  | [], _, st, h1, _, h3 => ⟨h1, h3⟩
  | f :: tl, hchar, st, h1, h2, h3 => by
    have htl := fun g hg => hchar g (List.mem_cons_of_mem f hg)
    rw [List.foldl_cons]
    rcases hchar f (List.mem_cons_self _ _) with ⟨ht, hc⟩ | ⟨ht, hc⟩
    · -- a `dependency`-kind finding at confidence 0.85: eligible
      obtain ⟨pj', m', fr'⟩ := st
      rw [depStep, if_neg (by rw [hc]; exact fun h => absurd h.2 (by decide))]
      by_cases hl : (List.lookup f.name pj'.dependencies).isSome = true
      · rw [if_pos ⟨ht, hl⟩]
        refine foldl_depStep_inv pj tl htl _ (by exact h1) ?_ ?_ <;> intro n hn
        · exact h2 n (mem_keys_of_mem_keys_filter n _ _ hn)
        · rcases List.mem_append.1 hn with hn | hn
          · exact h3 n hn
          · rw [List.mem_singleton.1 hn]
            exact h2 _ (lookup_isSome_mem_keys _ _ hl)
      · rw [if_neg (fun h => hl h.2),
          if_neg (fun h => by rw [ht] at h; exact absurd h.1 (by decide))]
        exact foldl_depStep_inv pj tl htl _ h1 h2 h3
    · -- a `devDependency`-kind finding at confidence 0.75: below the floor
      rw [depStep_below_floor _ _ (by rw [hc]; decide)]
      exact foldl_depStep_inv pj tl htl _ h1 h2 h3

/-- The verification branch of `fix` never changes the manifest or the
removed-dependency list: they are those of the dependency pass. -/
theorem fixWith_manifest_depsRemoved (testsPass : Bool) (opts : FixerOptions)
    (result : AnalysisResult) (st : SysState) :
    (fixWith testsPass opts result st).1.manifest =
        (fixUnusedDependencies opts result st.manifest
          (fixUnusedImports opts result st.fs initFixResult).2).1 ∧
      (fixWith testsPass opts result st).2.dependenciesRemoved =
        (fixUnusedDependencies opts result st.manifest
          (fixUnusedImports opts result st.fs initFixResult).2).2.dependenciesRemoved := by
  rw [fixWith]
  split_ifs <;> exact ⟨rfl, rfl⟩

/-- C9 (amended): in a safe-mode fix over findings produced by the
dependency detector, no `devDependencies` entry is ever deleted, and every
name in `dependenciesRemoved` is a declared regular-dependency name (i.e.
was removed through its `dependency`-kind finding; no removal happens on
account of a `devDependency`-kind finding, whose constant confidence 0.75
is below the 0.8 floor). -/
theorem claim9_devdeps_never_deleted (opts : FixerOptions)
    (hsafe : opts.safeMode = true) (pj : PackageJson) (used : List (List Char))
    (imps : List UnusedImport) (st : SysState) (hman : st.manifest = some pj) :
    (∃ pj', (fix opts ⟨imps, detectFrom pj used⟩ st).1.manifest = some pj' ∧
        pj'.devDependencies = pj.devDependencies) ∧
      ∀ n ∈ (fix opts ⟨imps, detectFrom pj used⟩ st).2.dependenciesRemoved,
        n ∈ pj.dependencies.map Prod.fst := by
  obtain ⟨hm, hd⟩ :=
    fixWith_manifest_depsRemoved runTests opts ⟨imps, detectFrom pj used⟩ st
  rw [fix, hm, hd]
  have hfr1 : (fixUnusedImports opts ⟨imps, detectFrom pj used⟩ st.fs
      initFixResult).2.dependenciesRemoved = [] :=
    fixUnusedImports_depsRemoved _ _ _ _
  have hinv := foldl_depStep_inv pj (detectFrom pj used) (detectFrom_char pj used)
    (pj, false, (fixUnusedImports opts ⟨imps, detectFrom pj used⟩ st.fs initFixResult).2)
    rfl (fun n hn => hn) (by rw [hfr1]; intro n hn; cases hn)
  simp only [fixUnusedDependencies, hman, hsafe]
  split
  · exact ⟨⟨_, rfl, hinv.1⟩, fun n hn => hinv.2 n hn⟩
  · exact ⟨⟨_, rfl, hinv.1⟩, fun n hn => hinv.2 n hn⟩

/-- C9 counterexample: under safe mode, a devDependency *name* can appear
in `dependenciesRemoved` — when the same name is also declared (and
removed) as a regular dependency — although its `devDependencies` entry
itself survives.  This refutes the claim's "no devDependency name appears
in dependenciesRemoved" as literally stated. -/
theorem claim9_counterexample :
    "leftpad" ∈ pj9.devDependencies.map Prod.fst ∧
      "leftpad" ∈
        (fix defaultFixerOptions ⟨[], detectFrom pj9 []⟩
          { fs := [], manifest := some pj9 }).2.dependenciesRemoved ∧
      (fix defaultFixerOptions ⟨[], detectFrom pj9 []⟩
          { fs := [], manifest := some pj9 }).1.manifest =
        some { dependencies := [], devDependencies := [("leftpad", "1.0.0")]
               peerDependencies := [] } := by
  decide

/-- C9 witness: the amended statement applied to the counterexample
fixture — the removed name entered through the `dependencies` map. -/
theorem claim9_witness : "leftpad" ∈ pj9.dependencies.map Prod.fst :=
  (claim9_devdeps_never_deleted defaultFixerOptions rfl pj9 [] []
      { fs := [], manifest := some pj9 } rfl).2 "leftpad" (by decide)

end CodeGuardian
